import Mathlib

/-!
Verification of the silhouette-to-note mapping and the playback scheduler of
src/App.tsx (the Prismatic Silk application).

The development shallowly embeds the two code regions with nontrivial
behaviour:

* processSilhouette (App.tsx lines 19-71): pixel-grid sampling of the rendered
  image into candidate spots (the local validSpots accumulation), the guard on
  an empty candidate set, and the melody.map placement loop that draws a random
  spot per note and conditionally splices it out of the candidate set.
* togglePlayback (App.tsx lines 101-124): the cancelable sequential playback
  pass over the placed notes, with its cooperative cancellation flag
  playbackRef and its stop branch.

Machine integers of the source are modelled as Nat; JavaScript Math.random()
is modelled as an ambient stream rand : Nat -> Rat of values in [0, 1), the
n-th call of the placement loop reading the n-th stream entry.  Asynchronous
interleaving of the playback pass is modelled by environment functions that
say, per note index, whether the external tone primitive succeeds and whether
a stop request arrives while that note is sounding (awaits are the only
interleaving points of the single-threaded event loop).
-/

namespace PrismaticSilk

/-- A candidate placement coordinate, the element type of the validSpots
array built in processSilhouette (App.tsx line 35). -/
structure Coord where
  x : Nat
  y : Nat
  deriving DecidableEq

/-- A melody note as consumed by processSilhouette: the fields of NoteData
read by the placement loop and by the playback loop (value, frequency,
duration).  Frequencies and durations are JavaScript numbers; the embedding
uses Rat. -/
structure NoteData where
  value : String
  frequency : Rat
  duration : Rat
  deriving DecidableEq

/-- A placed note (App.tsx lines 61-66): the spread of the source NoteData
plus an identifier and the chosen coordinate.  The source identifier is the
template string built from the sequence index and a fresh Math.random() value;
since the decimal renderings of the index and of the random value contain no
separator character, that string is determined by, and determines, the pair
(index, random value), which is what the id field stores. -/
structure PlacedNote where
  value : String
  frequency : Rat
  duration : Rat
  id : Nat × Rat
  x : Nat
  y : Nat
  deriving DecidableEq

/-! ## SpotSampler: the pixel-sampling loops of processSilhouette -/

/-- One JavaScript for-loop of the shape
for (v = start; v < stopN; v += stepN), returning the list of loop-variable
values.  The fuel argument only bounds the recursion; any fuel at least the
number of iterations (in particular stopN - start, when stepN >= 1) yields
the exact iteration sequence. -/
def loopFrom (stopN stepN : Nat) : Nat → Nat → List Nat
  | 0, _ => []
  | fuel + 1, start =>
    if start < stopN then start :: loopFrom stopN stepN fuel (start + stepN) else []

/-- The value sequence of for (v = start; v < stopN; v += stepN). -/
def forRange (start stopN stepN : Nat) : List Nat :=
  loopFrom stopN stepN (stopN - start) start

/-- The grid positions visited on each axis by the sampling loops of
App.tsx lines 38-39: for (y = step; y < 500 - step; y += step) with
step = 15. -/
def gridAxis : List Nat := forRange 15 (500 - 15) 15

/-- The pixel test of App.tsx lines 40-45: reading the RGBA byte array at
index (y * 500 + x) * 4, the spot qualifies when r < 248 or g < 248 or
b < 248. -/
def pixelDark (data : Nat → Nat) (x y : Nat) : Bool :=
  let index := (y * 500 + x) * 4
  decide (data index < 248 ∨ data (index + 1) < 248 ∨ data (index + 2) < 248)

/-- The validSpots array of processSilhouette (App.tsx lines 35-49): the
y-outer, x-inner grid scan pushing every coordinate whose pixel passes the
darkness test. -/
def validSpots (data : Nat → Nat) : List Coord :=
  gridAxis.flatMap fun y =>
    gridAxis.filterMap fun x =>
      if pixelDark data x y then some ⟨x, y⟩ else none

/-- Comparison definition following the spec's words (spec section 4.1): the
axis values v with step <= v < S - step that are step-aligned, S = 500,
step = 15. -/
def specAxis : List Nat :=
  (List.range 500).filter fun v => decide (15 ≤ v ∧ v < 500 - 15 ∧ v % 15 = 0)

/-- Comparison definition following the spec's words (spec section 4.1): the
ordered sequence of grid coordinates, row-major (y outer, x inner), whose
pixel is not near-white. -/
def specSpots (data : Nat → Nat) : List Coord :=
  specAxis.flatMap fun y =>
    ((specAxis.filter fun x => pixelDark data x y).map fun x => (⟨x, y⟩ : Coord))

/-! ## NotePlacer: the melody.map placement loop of processSilhouette -/

/-- A Math.random() stream is valid when every sample lies in [0, 1). -/
def ValidRand (rand : Nat → Rat) : Prop :=
  ∀ n, 0 ≤ rand n ∧ rand n < 1

/-- Math.floor(r * len), the random index draw of App.tsx line 57.  The
floor is taken in Int, as in JavaScript; for r >= 0 the toNat conversion is
lossless. -/
def spotDraw (r : Rat) (len : Nat) : Nat :=
  (Int.floor (r * (len : Rat))).toNat

/-- One recorded step of the placement loop: the drawn index, the candidate
set size at draw time, and whether the splice on App.tsx line 59 ran. -/
structure DrawStep where
  spotIndex : Nat
  size : Nat
  removedFlag : Bool
  deriving DecidableEq

/-- The body of melody.map in processSilhouette (App.tsx lines 56-67),
threading the mutable validSpots array and the element index idx.  N is
melody.length, the fixed comparison bound of the splice condition on line 59.
The n-th Math.random() call of the source reads stream entry n; iteration idx
makes calls 2*idx (spot draw) and 2*idx+1 (identifier).  The source indexing
validSpots[spotIndex] is modelled with getD; the draw-safety theorem shows the
index is in bounds for every valid random stream, so the default is never
read.  Alongside the placed notes the function records the draw trace. -/
def placeLoop (rand : Nat → Rat) (N : Nat) :
    List NoteData → Nat → List Coord → List PlacedNote × List DrawStep
  | [], _, _ => ([], [])
  | note :: rest, idx, spots =>
    let len := spots.length
    let spotIndex := spotDraw (rand (2 * idx)) len
    let spot := spots.getD spotIndex ⟨0, 0⟩
    let spots' := if N < len then spots.eraseIdx spotIndex else spots
    let pn : PlacedNote :=
      { value := note.value, frequency := note.frequency, duration := note.duration,
        id := (idx, rand (2 * idx + 1)), x := spot.x, y := spot.y }
    let res := placeLoop rand N rest (idx + 1) spots'
    (pn :: res.1, ⟨spotIndex, len, decide (N < len)⟩ :: res.2)

/-- The newPlacedNotes array of processSilhouette (App.tsx lines 56-67). -/
def placeNotes (rand : Nat → Rat) (melody : List NoteData) (spots : List Coord) :
    List PlacedNote :=
  (placeLoop rand melody.length melody 0 spots).1

/-- The draw trace of the placement loop: per note, the drawn index, the
candidate-set size at that moment, and whether the splice ran. -/
def placeTrace (rand : Nat → Rat) (melody : List NoteData) (spots : List Coord) :
    List DrawStep :=
  (placeLoop rand melody.length melody 0 spots).2

/-- The user-facing message of the empty-candidate guard (App.tsx line 52). -/
def errorMessage : String :=
  "Could not trace the silk shape clearly. Please try a simpler object."

/-- Outcome of one generation cycle's sampling-plus-placement stage. -/
inductive ProcessResult where
  | noVisibleShape (message : String)
  | placed (notes : List PlacedNote)
  deriving DecidableEq

/-- The decision structure of processSilhouette after the image is rasterised
(App.tsx lines 35-69): sample the grid, stop with the user-facing error when
no candidate spot was found (lines 51-54, placedNotes untouched), otherwise
run the placement loop and publish its result (line 69). -/
def processSilhouette (rand : Nat → Rat) (data : Nat → Nat) (melody : List NoteData) :
    ProcessResult :=
  let spots := validSpots data
  if spots.length = 0 then ProcessResult.noVisibleShape errorMessage
  else ProcessResult.placed (placeNotes rand melody spots)

/-! ## PlaybackScheduler: togglePlayback -/

/-- The observable scheduler state of App.tsx: the isPlaying React state, the
playbackRef cancellation flag, and the currentNoteIndex React state. -/
structure SchedState where
  isPlaying : Bool
  playbackRef : Bool
  currentNoteIndex : Option Nat
  deriving DecidableEq

/-- The state change of one loop iteration for note i (App.tsx lines 116-118):
currentNoteIndex is set to i, then the playNote await suspends; if a stop
request arrives during the await, its branch (lines 103-104) clears
playbackRef and isPlaying before the loop resumes. -/
def noteStep (stopDuring : Nat → Bool) (i : Nat) (s : SchedState) : SchedState :=
  let s1 : SchedState := { s with currentNoteIndex := some i }
  if stopDuring i then { s1 with isPlaying := false, playbackRef := false } else s1

/-- The playback for-loop of togglePlayback (App.tsx lines 113-119) over a
placed sequence of length i + remaining, currently at index i.  playOk i says
whether the awaited audioPlayer.playNote call for note i resolves (true) or
rejects (false); stopDuring i says whether a togglePlayback stop request
arrives while note i is sounding (the await is the only interleaving point,
so a stop lands between the playNote call and the next loop iteration).
Returns the indices for which playNote was called, the state when the loop
is left, and whether a rejection escaped (aborting the function before the
cleanup lines 121-123). -/
def runLoopAux (playOk stopDuring : Nat → Bool) :
    Nat → Nat → SchedState → List Nat × SchedState × Bool
  | 0, _, s => ([], s, false)
  | remaining + 1, i, s =>
    if s.playbackRef then
      let s2 := noteStep stopDuring i s
      if playOk i then
        let res := runLoopAux playOk stopDuring remaining (i + 1) s2
        (i :: res.1, res.2)
      else
        ([i], s2, true)
    else
      ([], s, false)

/-- The stop branch of togglePlayback (App.tsx lines 102-106): clear the
cancellation flag and isPlaying, touch nothing else. -/
def stopBranch (s : SchedState) : SchedState :=
  { s with isPlaying := false, playbackRef := false }

/-- togglePlayback (App.tsx lines 101-124).  When isPlaying, take the stop
branch and return.  Otherwise, with a nonempty placed sequence, mark the pass
live and run the loop; the cleanup on lines 121-123 (currentNoteIndex := none,
isPlaying := false, playbackRef := false) runs only when no playNote rejection
escaped the loop.  The result lists the playNote calls made (by placed-note
index; the call for index i passes placedNotes[i].frequency, .duration and
.value), the state after the call, and whether a rejection escaped. -/
def togglePlayback (playOk stopDuring : Nat → Bool) (placedNotes : List PlacedNote)
    (s : SchedState) : List Nat × SchedState × Bool :=
  if s.isPlaying then ([], stopBranch s, false)
  else if placedNotes.length = 0 then ([], s, false)
  else
    let s0 : SchedState := { s with isPlaying := true, playbackRef := true }
    let res := runLoopAux playOk stopDuring placedNotes.length 0 s0
    if res.2.2 then res
    else (res.1, { res.2.1 with isPlaying := false, playbackRef := false,
                                currentNoteIndex := none }, false)

/-! ## Concrete sample inputs used by witnesses and counterexamples -/

/-- The all-zero random stream (Math.random() may return 0). -/
def randZero : Nat → Rat := fun _ => 0

/-- The constant one-half random stream. -/
def randHalf : Nat → Rat := fun _ => 1 / 2

/-- A concrete placed note. -/
def sampleNote : PlacedNote :=
  { value := "C", frequency := 261, duration := 1, id := (0, 0), x := 15, y := 15 }

/-- A concrete three-note melody. -/
def melody3 : List NoteData := [⟨"C", 261, 1⟩, ⟨"D", 293, 1⟩, ⟨"E", 329, 1⟩]

/-- A concrete two-note melody. -/
def melody2 : List NoteData := [⟨"C", 261, 1⟩, ⟨"D", 293, 1⟩]

/-- The three candidate spots of the spec's placement scenario. -/
def spots3 : List Coord := [⟨15, 15⟩, ⟨30, 15⟩, ⟨15, 30⟩]

/-- An all-white 500 by 500 pixel buffer: every byte reads 255. -/
def whiteData : Nat → Nat := fun _ => 255

/-- The index sequence i, i+1, ..., i+m-1, used to describe the in-order
segment of placed-note indices visited by a playback pass. -/
def idxRange : Nat → Nat → List Nat
  | _, 0 => []
  | i, m + 1 => i :: idxRange (i + 1) m

/-! ## General helper lemmas -/

lemma filterMap_if_eq_filter_map {α β : Type} (p : α → Bool) (f : α → β) :
    ∀ l : List α,
      l.filterMap (fun a => if p a then some (f a) else none) = (l.filter p).map f
  | [] => rfl
  | a :: l => by
    cases hpa : p a <;>
      simp [List.filterMap_cons, List.filter_cons, hpa, filterMap_if_eq_filter_map p f l]

lemma getElem_not_mem_eraseIdx {α : Type} :
    ∀ (l : List α) (i : Nat) (h : i < l.length), l.Nodup → l[i] ∉ l.eraseIdx i
  | a :: l, 0, _, hnd => by
    simpa [List.eraseIdx] using (List.nodup_cons.mp hnd).1
  | a :: l, i + 1, h, hnd => by
    intro hmem
    have hlt : i < l.length := by simpa using h
    rcases List.mem_cons.mp (by simpa [List.eraseIdx] using hmem) with heq | htail
    · exact (List.nodup_cons.mp hnd).1 (heq ▸ List.getElem_mem hlt)
    · exact getElem_not_mem_eraseIdx l i hlt (List.nodup_cons.mp hnd).2 htail

lemma spotDraw_lt (r : Rat) (len : Nat) (h0 : 0 ≤ r) (h1 : r < 1) (hl : 0 < len) :
    spotDraw r len < len := by
  have hcast : (0 : Rat) < (len : Rat) := by exact_mod_cast hl
  have hmul : r * (len : Rat) < (len : Rat) := by
    calc r * (len : Rat) < 1 * (len : Rat) := mul_lt_mul_of_pos_right h1 hcast
      _ = (len : Rat) := one_mul _
  have hfl : Int.floor (r * (len : Rat)) < (len : Int) := by
    exact Int.floor_lt.mpr (by exact_mod_cast hmul)
  have hnn : (0 : Int) ≤ Int.floor (r * (len : Rat)) :=
    Int.floor_nonneg.mpr (mul_nonneg h0 (le_of_lt hcast))
  unfold spotDraw
  omega

lemma idxRange_eq_map_range : ∀ (m i : Nat), idxRange i m = (List.range m).map (i + ·)
  | 0, _ => rfl
  | m + 1, i => by
    rw [List.range_succ_eq_map]
    simp only [idxRange, idxRange_eq_map_range m (i + 1), List.map_cons, List.map_map]
    refine congrArg₂ List.cons (by omega) (List.map_congr_left fun x _ => ?_)
    simp [Function.comp]
    omega

lemma idxRange_zero (m : Nat) : idxRange 0 m = List.range m := by
  rw [idxRange_eq_map_range]
  have h : (List.range m).map (0 + ·) = (List.range m).map id :=
    List.map_congr_left fun x _ => by simp
  rw [h, List.map_id]

/-! ## Scheduler loop lemmas -/

lemma runLoopAux_not_ref (playOk stopDuring : Nat → Bool) (r i : Nat) (s : SchedState)
    (h : s.playbackRef = false) : runLoopAux playOk stopDuring r i s = ([], s, false) := by
  cases r <;> simp [runLoopAux, h]

lemma runLoopAux_played_initial (playOk stopDuring : Nat → Bool) :
    ∀ (r i : Nat) (s : SchedState),
      ∃ m, m ≤ r ∧ (runLoopAux playOk stopDuring r i s).1 = idxRange i m := by
  intro r
  induction r with
  | zero => exact fun i s => ⟨0, Nat.le_refl 0, rfl⟩
  | succ r ih =>
    intro i s
    cases href : s.playbackRef with
    | false => exact ⟨0, Nat.zero_le _, by simp [runLoopAux, href, idxRange]⟩
    | true =>
      cases hok : playOk i with
      | false => exact ⟨1, by omega, by simp [runLoopAux, href, hok, idxRange]⟩
      | true =>
        obtain ⟨m, hm, h⟩ := ih (i + 1) (noteStep stopDuring i s)
        exact ⟨m + 1, by omega, by simp [runLoopAux, href, hok, idxRange, h]⟩

lemma noteStep_stop (stopDuring : Nat → Bool) (i : Nat) (p : Bool) (ci : Option Nat)
    (h : stopDuring i = true) :
    noteStep stopDuring i ⟨p, true, ci⟩ = ⟨false, false, some i⟩ := by
  simp [noteStep, h]

lemma noteStep_go (stopDuring : Nat → Bool) (i : Nat) (p : Bool) (ci : Option Nat)
    (h : stopDuring i = false) :
    noteStep stopDuring i ⟨p, true, ci⟩ = ⟨p, true, some i⟩ := by
  simp [noteStep, h]

/-- The loop, entered at index i with the cancellation flag live, when every
playNote call up to note k succeeds, the first stop request arrives during
note k's await, and more than k - i iterations remain: note k finishes, the
loop breaks at the next boundary, and the notes played are exactly i..k. -/
lemma runLoopAux_stop (playOk stopDuring : Nat → Bool) (k : Nat)
    (hok : ∀ i, i ≤ k → playOk i = true)
    (hpre : ∀ i, i < k → stopDuring i = false)
    (hsk : stopDuring k = true) :
    ∀ (d i r : Nat) (p : Bool) (ci : Option Nat), i + d = k → k < i + r →
      runLoopAux playOk stopDuring r i ⟨p, true, ci⟩ =
        (idxRange i (d + 1), ⟨false, false, some k⟩, false) := by
  intro d
  induction d with
  | zero =>
    intro i r p ci hik hr
    have hik' : i = k := by omega
    subst hik'
    obtain ⟨r', rfl⟩ : ∃ r', r = r' + 1 := ⟨r - 1, by omega⟩
    have hstep := noteStep_stop stopDuring i p ci hsk
    simp [runLoopAux, hok i (Nat.le_refl i), hstep, idxRange,
      runLoopAux_not_ref playOk stopDuring r' (i + 1) ⟨false, false, some i⟩ rfl]
  | succ d ih =>
    intro i r p ci hik hr
    have hilt : i < k := by omega
    obtain ⟨r', rfl⟩ : ∃ r', r = r' + 1 := ⟨r - 1, by omega⟩
    have hstep := noteStep_go stopDuring i p ci (hpre i hilt)
    have hrec := ih (i + 1) r' p (some i) (by omega) (by omega)
    simp [runLoopAux, hok i (by omega), hstep, hrec, idxRange]

/-- The loop, entered at index i with the cancellation flag live, when every
playNote call before note j succeeds, no stop request arrives up to note j,
note j's playNote call rejects, and more than j - i iterations remain: the
rejection escapes with notes i..j played, isPlaying still true and
currentNoteIndex still set to j. -/
lemma runLoopAux_fail (playOk stopDuring : Nat → Bool) (j : Nat)
    (hfail : playOk j = false)
    (hok : ∀ i, i < j → playOk i = true)
    (hnostop : ∀ i, i ≤ j → stopDuring i = false) :
    ∀ (d i r : Nat) (ci : Option Nat), i + d = j → j < i + r →
      runLoopAux playOk stopDuring r i ⟨true, true, ci⟩ =
        (idxRange i (d + 1), ⟨true, true, some j⟩, true) := by
  intro d
  induction d with
  | zero =>
    intro i r ci hij hr
    have hij' : i = j := by omega
    subst hij'
    obtain ⟨r', rfl⟩ : ∃ r', r = r' + 1 := ⟨r - 1, by omega⟩
    have hstep := noteStep_go stopDuring i true ci (hnostop i (Nat.le_refl i))
    simp [runLoopAux, hfail, hstep, idxRange]
  | succ d ih =>
    intro i r ci hij hr
    have hilt : i < j := by omega
    obtain ⟨r', rfl⟩ : ∃ r', r = r' + 1 := ⟨r - 1, by omega⟩
    have hstep := noteStep_go stopDuring i true ci (hnostop i (by omega))
    have hrec := ih (i + 1) r' (some i) (by omega) (by omega)
    simp [runLoopAux, hok i hilt, hstep, hrec, idxRange]

/-! ## Placement loop lemmas -/

/-- One unfolding step of the placement loop. -/
lemma placeLoop_cons (rand : Nat → Rat) (N : Nat) (note : NoteData) (rest : List NoteData)
    (idx : Nat) (cur : List Coord) :
    placeLoop rand N (note :: rest) idx cur =
      (({ value := note.value, frequency := note.frequency, duration := note.duration,
          id := (idx, rand (2 * idx + 1)),
          x := (cur.getD (spotDraw (rand (2 * idx)) cur.length) ⟨0, 0⟩).x,
          y := (cur.getD (spotDraw (rand (2 * idx)) cur.length) ⟨0, 0⟩).y } : PlacedNote) ::
          (placeLoop rand N rest (idx + 1)
            (if N < cur.length then cur.eraseIdx (spotDraw (rand (2 * idx)) cur.length)
             else cur)).1,
        (⟨spotDraw (rand (2 * idx)) cur.length, cur.length, decide (N < cur.length)⟩ :
            DrawStep) ::
          (placeLoop rand N rest (idx + 1)
            (if N < cur.length then cur.eraseIdx (spotDraw (rand (2 * idx)) cur.length)
             else cur)).2) := rfl

lemma placeLoop_proj (rand : Nat → Rat) (N : Nat) :
    ∀ (rest : List NoteData) (idx : Nat) (cur : List Coord),
      (placeLoop rand N rest idx cur).1.map
          (fun pn => (pn.value, pn.frequency, pn.duration)) =
        rest.map (fun n => (n.value, n.frequency, n.duration))
  | [], _, _ => rfl
  | note :: rest, idx, cur => by
    rw [placeLoop_cons]
    simpa using placeLoop_proj rand N rest (idx + 1) _

lemma placeLoop_ids (rand : Nat → Rat) (N : Nat) :
    ∀ (rest : List NoteData) (idx : Nat) (cur : List Coord),
      (placeLoop rand N rest idx cur).1.map (fun pn => pn.id.1) = idxRange idx rest.length
  | [], _, _ => rfl
  | note :: rest, idx, cur => by
    rw [placeLoop_cons]
    simpa [idxRange] using placeLoop_ids rand N rest (idx + 1) _

lemma placeLoop_removedFlag (rand : Nat → Rat) (N : Nat) :
    ∀ (rest : List NoteData) (idx : Nat) (cur : List Coord),
      ∀ t ∈ (placeLoop rand N rest idx cur).2, t.removedFlag = decide (N < t.size)
  | [], _, _ => by simp [placeLoop]
  | note :: rest, idx, cur => by
    rw [placeLoop_cons]
    intro t ht
    rcases List.mem_cons.mp ht with rfl | htail
    · rfl
    · exact placeLoop_removedFlag rand N rest (idx + 1) _ t htail

/-- Every coordinate assigned by the placement loop is a member of the
candidate set the loop was entered with. -/
lemma placeLoop_mem (rand : Nat → Rat) (hr : ValidRand rand) (N : Nat) :
    ∀ (rest : List NoteData) (idx : Nat) (cur : List Coord), 0 < cur.length →
      N = idx + rest.length →
      ∀ pn ∈ (placeLoop rand N rest idx cur).1, (⟨pn.x, pn.y⟩ : Coord) ∈ cur := by
  intro rest
  induction rest with
  | nil => intro idx cur _ _ pn hpn; simp [placeLoop] at hpn
  | cons note rest ih =>
    intro idx cur hcur hN pn hpn
    rw [List.length_cons] at hN
    rw [placeLoop_cons] at hpn
    have hsidx : spotDraw (rand (2 * idx)) cur.length < cur.length :=
      spotDraw_lt _ _ (hr (2 * idx)).1 (hr (2 * idx)).2 hcur
    have hspot : cur.getD (spotDraw (rand (2 * idx)) cur.length) ⟨0, 0⟩ ∈ cur := by
      rw [List.getD_eq_getElem cur ⟨0, 0⟩ hsidx]
      exact List.getElem_mem hsidx
    rcases List.mem_cons.mp hpn with rfl | htail
    · exact hspot
    · by_cases hrm : N < cur.length
      · have hlen : (cur.eraseIdx (spotDraw (rand (2 * idx)) cur.length)).length =
            cur.length - 1 := by
          rw [List.length_eraseIdx]
          simp [hsidx]
        have hpos : 0 < (cur.eraseIdx (spotDraw (rand (2 * idx)) cur.length)).length := by
          omega
        have hmem := ih (idx + 1) _ hpos (by omega) pn (by
          simpa [hrm] using htail)
        exact (List.eraseIdx_sublist cur (spotDraw (rand (2 * idx)) cur.length)).subset hmem
      · exact ih (idx + 1) cur hcur (by omega) pn (by simpa [hrm] using htail)

/-- Safety of every draw of the placement loop: with a valid random stream
and a nonempty candidate set, each drawn index is in bounds for the
candidate-set size at draw time, and that size never falls below the smaller
of the entry size and N. -/
lemma placeLoop_trace_safe (rand : Nat → Rat) (hr : ValidRand rand) (N : Nat) :
    ∀ (rest : List NoteData) (idx : Nat) (cur : List Coord), 0 < cur.length →
      N = idx + rest.length →
      ∀ t ∈ (placeLoop rand N rest idx cur).2,
        t.spotIndex < t.size ∧ min cur.length N ≤ t.size := by
  intro rest
  induction rest with
  | nil => intro idx cur _ _ t ht; simp [placeLoop] at ht
  | cons note rest ih =>
    intro idx cur hcur hN t ht
    rw [List.length_cons] at hN
    rw [placeLoop_cons] at ht
    have hsidx : spotDraw (rand (2 * idx)) cur.length < cur.length :=
      spotDraw_lt _ _ (hr (2 * idx)).1 (hr (2 * idx)).2 hcur
    rcases List.mem_cons.mp ht with rfl | htail
    · exact ⟨hsidx, Nat.min_le_left _ _⟩
    · by_cases hrm : N < cur.length
      · have hlen : (cur.eraseIdx (spotDraw (rand (2 * idx)) cur.length)).length =
            cur.length - 1 := by
          rw [List.length_eraseIdx]
          simp [hsidx]
        have hpos : 0 < (cur.eraseIdx (spotDraw (rand (2 * idx)) cur.length)).length := by
          omega
        have hres := ih (idx + 1) _ hpos (by omega) t (by simpa [hrm] using htail)
        exact ⟨hres.1, by omega⟩
      · have hres := ih (idx + 1) cur hcur (by omega) t (by simpa [hrm] using htail)
        exact ⟨hres.1, hres.2⟩

/-- Distinctness of the assigned coordinates: with a valid random stream, a
duplicate-free candidate set, and N + (notes remaining) at most one more than
the candidate-set size, the splice runs at every step but possibly the last,
so all assigned coordinates are distinct. -/
lemma placeLoop_nodup (rand : Nat → Rat) (hr : ValidRand rand) (N : Nat) :
    ∀ (rest : List NoteData) (idx : Nat) (cur : List Coord), cur.Nodup →
      N = idx + rest.length → N + rest.length ≤ cur.length + 1 →
      ((placeLoop rand N rest idx cur).1.map (fun pn => (⟨pn.x, pn.y⟩ : Coord))).Nodup := by
  intro rest
  induction rest with
  | nil => intro idx cur _ _ _; simp [placeLoop]
  | cons note rest ih =>
    intro idx cur hnd hN hbound
    rw [List.length_cons] at hN hbound
    have hcur : 0 < cur.length := by omega
    have hsidx : spotDraw (rand (2 * idx)) cur.length < cur.length :=
      spotDraw_lt _ _ (hr (2 * idx)).1 (hr (2 * idx)).2 hcur
    rw [placeLoop_cons]
    rcases rest with _ | ⟨note2, rest2⟩
    · simp [placeLoop]
    · rw [List.length_cons] at hN hbound
      have hrm : N < cur.length := by omega
      have hlen : (cur.eraseIdx (spotDraw (rand (2 * idx)) cur.length)).length =
          cur.length - 1 := by
        rw [List.length_eraseIdx]
        simp [hsidx]
      have hpos : 0 < (cur.eraseIdx (spotDraw (rand (2 * idx)) cur.length)).length := by
        omega
      have hnd' : (cur.eraseIdx (spotDraw (rand (2 * idx)) cur.length)).Nodup :=
        (List.eraseIdx_sublist cur _).nodup hnd
      have htailnd := ih (idx + 1) _ hnd'
        (by simp only [List.length_cons]; omega)
        (by simp only [List.length_cons]; omega)
      rw [if_pos hrm]
      rw [List.map_cons, List.nodup_cons]
      refine ⟨fun hmem => ?_, htailnd⟩
      obtain ⟨pn, hpn, hcoord⟩ := List.mem_map.mp hmem
      have hpnmem := placeLoop_mem rand hr N (note2 :: rest2) (idx + 1) _ hpos
        (by simp only [List.length_cons]; omega) pn hpn
      have heta : (⟨pn.x, pn.y⟩ : Coord) =
          cur.getD (spotDraw (rand (2 * idx)) cur.length) ⟨0, 0⟩ := hcoord.trans rfl
      rw [heta, List.getD_eq_getElem cur ⟨0, 0⟩ hsidx] at hpnmem
      exact getElem_not_mem_eraseIdx cur _ hsidx hnd hpnmem

lemma validRand_randZero : ValidRand randZero := by
  intro n
  constructor <;> norm_num [randZero]

lemma validRand_randHalf : ValidRand randHalf := by
  intro n
  constructor <;> norm_num [randHalf]

/-! ## Claim theorems -/

set_option maxRecDepth 40000 in
/-- Claim C4: for every 500 by 500 image and the fixed step 15, the sampler
outputs exactly the coordinates (x, y) on the step-aligned grid with
15 <= x < 485 and 15 <= y < 485 whose pixel is not near-white (r < 248 or
g < 248 or b < 248), traversed deterministically in row-major order (y outer,
x inner): the code's validSpots array equals the sequence the spec describes. -/
theorem spotSampler_exact (data : Nat → Nat) : validSpots data = specSpots data := by
  have hax : gridAxis = specAxis := by decide
  unfold validSpots specSpots
  rw [hax]
  have hfun : ∀ y : Nat,
      (specAxis.filterMap fun x => if pixelDark data x y then some (⟨x, y⟩ : Coord) else none) =
        ((specAxis.filter fun x => pixelDark data x y).map fun x => (⟨x, y⟩ : Coord)) :=
    fun y =>
      filterMap_if_eq_filter_map (fun x => pixelDark data x y) (fun x => (⟨x, y⟩ : Coord))
        specAxis
  simp only [hfun]

/-- Claim C6: when sampling yields an empty candidate set, processSilhouette
reports the recoverable user-facing message and stops before placement: the
result is the NoVisibleShape outcome carrying the message, and no PlacedNote
is produced. -/
theorem empty_candidates_no_placement (rand : Nat → Rat) (data : Nat → Nat)
    (melody : List NoteData) (h : validSpots data = []) :
    processSilhouette rand data melody = ProcessResult.noVisibleShape errorMessage := by
  simp [processSilhouette, h]

set_option maxRecDepth 40000 in
theorem empty_candidates_no_placement_witness :
    validSpots whiteData = [] ∧
    processSilhouette randZero whiteData melody3 = ProcessResult.noVisibleShape errorMessage :=
  ⟨by decide, empty_candidates_no_placement randZero whiteData melody3 (by decide)⟩

/-- Claim C5: for every melody of length N and candidate set of size at least
one, placement produces exactly N PlacedNotes, the i-th output carrying the
i-th input note's value, frequency and duration (no note dropped, order
preserved) — also when the candidate set is smaller than the melody. -/
theorem noteplacer_length_order (rand : Nat → Rat) (melody : List NoteData)
    (spots : List Coord) (hM : 0 < spots.length) :
    (placeNotes rand melody spots).length = melody.length ∧
    (placeNotes rand melody spots).map (fun pn => (pn.value, pn.frequency, pn.duration)) =
      melody.map (fun n => (n.value, n.frequency, n.duration)) := by
  have h := placeLoop_proj rand melody.length melody 0 spots
  constructor
  · have h2 := congrArg List.length h
    simpa [placeNotes] using h2
  · simpa [placeNotes] using h

theorem noteplacer_length_order_witness :
    0 < ([(⟨15, 15⟩ : Coord)] : List Coord).length ∧
    (placeNotes randZero melody2 [⟨15, 15⟩]).length = melody2.length ∧
    (placeNotes randZero melody2 [⟨15, 15⟩]).map
        (fun pn => (pn.value, pn.frequency, pn.duration)) =
      melody2.map (fun n => (n.value, n.frequency, n.duration)) := by
  have h := noteplacer_length_order randZero melody2 [⟨15, 15⟩] (by decide)
  exact ⟨by decide, h.1, h.2⟩

/-- Claim C9: within one generation cycle every PlacedNote identifier is
unique, because the identifier combines the note's sequence index (its first
component, which runs through 0, ..., N-1) with a random component — so two
notes sharing a coordinate still have distinct ids. -/
theorem placednote_ids_unique (rand : Nat → Rat) (melody : List NoteData)
    (spots : List Coord) :
    ((placeNotes rand melody spots).map PlacedNote.id).Nodup ∧
    (placeNotes rand melody spots).map (fun pn => pn.id.1) = List.range melody.length := by
  have hids : (placeNotes rand melody spots).map (fun pn => pn.id.1) =
      List.range melody.length := by
    simpa [placeNotes, idxRange_zero] using placeLoop_ids rand melody.length melody 0 spots
  refine ⟨?_, hids⟩
  have hfst : (((placeNotes rand melody spots).map PlacedNote.id).map Prod.fst).Nodup := by
    rw [List.map_map]
    exact hids ▸ List.nodup_range _
  exact hfst.of_map Prod.fst

/-- Claim C10: whenever placement runs on a nonempty candidate set with a
valid Math.random() stream, every drawn index Math.floor(random * size) is in
bounds for the current candidate set, the conditional splice never empties
the set mid-placement (the size never falls below the smaller of the initial
size and the melody length, hence never below the melody length once at or
below it), and every PlacedNote's coordinate is an entry of the sampled
candidate set — the array lookup never reads out of bounds. -/
theorem placement_draws_safe (rand : Nat → Rat) (melody : List NoteData)
    (spots : List Coord) (hr : ValidRand rand) (hM : spots ≠ []) :
    (∀ t ∈ placeTrace rand melody spots,
        t.spotIndex < t.size ∧ min spots.length melody.length ≤ t.size) ∧
    (∀ pn ∈ placeNotes rand melody spots, (⟨pn.x, pn.y⟩ : Coord) ∈ spots) := by
  have hpos : 0 < spots.length := List.length_pos.mpr hM
  constructor
  · intro t ht
    exact placeLoop_trace_safe rand hr melody.length melody 0 spots hpos (by simp) t
      (by simpa [placeTrace] using ht)
  · intro pn hpn
    exact placeLoop_mem rand hr melody.length melody 0 spots hpos (by simp) pn
      (by simpa [placeNotes] using hpn)

theorem placement_draws_safe_witness :
    ValidRand randHalf ∧ ([(⟨15, 15⟩ : Coord)] : List Coord) ≠ [] ∧
    (∀ t ∈ placeTrace randHalf melody2 [⟨15, 15⟩],
        t.spotIndex < t.size ∧
          min ([(⟨15, 15⟩ : Coord)] : List Coord).length melody2.length ≤ t.size) ∧
    (∀ pn ∈ placeNotes randHalf melody2 [⟨15, 15⟩],
        (⟨pn.x, pn.y⟩ : Coord) ∈ ([(⟨15, 15⟩ : Coord)] : List Coord)) := by
  have h := placement_draws_safe randHalf melody2 [⟨15, 15⟩] validRand_randHalf (by decide)
  exact ⟨validRand_randHalf, by decide, h.1, h.2⟩

lemma spotDraw_zero (len : Nat) : spotDraw 0 len = 0 := by
  simp [spotDraw]

lemma placeLoop_randZero_eval :
    (placeNotes randZero melody3 spots3).map (fun pn => (⟨pn.x, pn.y⟩ : Coord)) =
      [⟨15, 15⟩, ⟨15, 15⟩, ⟨15, 15⟩] ∧
    placeTrace randZero melody3 spots3 =
      [⟨0, 3, false⟩, ⟨0, 3, false⟩, ⟨0, 3, false⟩] := by
  constructor <;>
    simp [placeNotes, placeTrace, melody3, spots3, placeLoop_cons, placeLoop, randZero,
      spotDraw_zero, List.getD_cons_zero]

/-- Claim C1, counterexample: with the spec's own scenario — candidate set
of size M = N = 3 — and the valid random stream that always returns 0, all
three notes are placed on (15, 15): the coordinates are not pairwise
distinct, and no draw ever removes a candidate (the splice condition
compares against the total melody length, which the set size never
exceeds), even at steps where the set size exceeds the number of notes
remaining to place. -/
theorem noteplacer_distinct_counterexample :
    ValidRand randZero ∧ spots3.Nodup ∧ spots3.length = melody3.length ∧
    (placeNotes randZero melody3 spots3).map (fun pn => (⟨pn.x, pn.y⟩ : Coord)) =
      [⟨15, 15⟩, ⟨15, 15⟩, ⟨15, 15⟩] ∧
    ¬ ((placeNotes randZero melody3 spots3).map (fun pn => (⟨pn.x, pn.y⟩ : Coord))).Nodup ∧
    ∀ t ∈ placeTrace randZero melody3 spots3, t.removedFlag = false :=
  ⟨validRand_randZero, by decide, by decide, placeLoop_randZero_eval.1,
    by rw [placeLoop_randZero_eval.1]; decide,
    by rw [placeLoop_randZero_eval.2]; decide⟩

/-- Claim C1, amended: a drawn candidate is removed exactly when the current
candidate set size exceeds the total melody length N (not the number of
notes remaining to place); consequently, for a duplicate-free candidate set
of size M and a valid random stream, the N assigned coordinates are pairwise
distinct whenever M >= 2N - 1 (the splice then runs at every step but
possibly the last) — not already when M >= N. -/
theorem noteplacer_distinct_amended (rand : Nat → Rat) (melody : List NoteData)
    (spots : List Coord) (hr : ValidRand rand) (hnd : spots.Nodup)
    (hM : 2 * melody.length ≤ spots.length + 1) :
    (∀ t ∈ placeTrace rand melody spots, (t.removedFlag = true ↔ melody.length < t.size)) ∧
    ((placeNotes rand melody spots).map (fun pn => (⟨pn.x, pn.y⟩ : Coord))).Nodup := by
  constructor
  · intro t ht
    have h := placeLoop_removedFlag rand melody.length melody 0 spots t
      (by simpa [placeTrace] using ht)
    rw [h]
    simp
  · have h := placeLoop_nodup rand hr melody.length melody 0 spots hnd (by simp) (by omega)
    simpa [placeNotes] using h

theorem noteplacer_distinct_amended_witness :
    ValidRand randHalf ∧ spots3.Nodup ∧ 2 * melody2.length ≤ spots3.length + 1 ∧
    ((placeNotes randHalf melody2 spots3).map (fun pn => (⟨pn.x, pn.y⟩ : Coord))).Nodup := by
  have h := noteplacer_distinct_amended randHalf melody2 spots3 validRand_randHalf
    (by decide) (by decide)
  exact ⟨validRand_randHalf, by decide, by decide, h.2⟩

/-- Claim C2, counterexample: a togglePlayback call in the Playing state
(the stop branch) clears the cancellation flag and isPlaying but does not
reset currentNoteIndex: from state (playing, flag live, current note 0) the
call returns with currentNoteIndex still 0, not none — the reset to none
happens only when the pass's loop terminates after the in-flight note. -/
theorem stop_currentindex_counterexample :
    togglePlayback (fun _ => true) (fun _ => true) [sampleNote] ⟨true, true, some 0⟩ =
      ([], ⟨false, false, some 0⟩, false) ∧
    ¬ (togglePlayback (fun _ => true) (fun _ => true) [sampleNote]
        ⟨true, true, some 0⟩).2.1.currentNoteIndex = none :=
  ⟨by decide, by decide⟩

/-- Claim C2, amended: when stop() is invoked while the scheduler is
Playing, the cancellation token is cleared immediately and isPlaying is set
false immediately, but currentIndex keeps its value at that moment; it is
reset to none only by the pass itself, once the in-flight note finishes and
the loop terminates without a playNote rejection. -/
theorem stop_immediate_effects (playOk stopDuring : Nat → Bool) (notes : List PlacedNote) :
    (∀ (b : Bool) (ci : Option Nat),
        togglePlayback playOk stopDuring notes ⟨true, b, ci⟩ =
          ([], ⟨false, false, ci⟩, false)) ∧
    (∀ s : SchedState, s.isPlaying = false → ¬ notes.length = 0 →
        (togglePlayback playOk stopDuring notes s).2.2 = false →
        (togglePlayback playOk stopDuring notes s).2.1.currentNoteIndex = none) := by
  constructor
  · intro b ci
    rfl
  · intro s hs hn hthrew
    simp only [togglePlayback, hs, Bool.false_eq_true, if_false, if_neg hn] at hthrew ⊢
    cases hres : (runLoopAux playOk stopDuring notes.length 0
        { s with isPlaying := true, playbackRef := true }).2.2
    · simp [hres]
    · simp [hres] at hthrew

theorem stop_immediate_effects_witness :
    togglePlayback (fun _ => true) (fun _ => false) [sampleNote] ⟨true, true, some 5⟩ =
      ([], ⟨false, false, some 5⟩, false) ∧
    (togglePlayback (fun _ => true) (fun _ => false) [sampleNote]
        ⟨false, false, some 5⟩).2.1.currentNoteIndex = none := by
  have h := stop_immediate_effects (fun _ => true) (fun _ => false) [sampleNote]
  exact ⟨h.1 true (some 5), h.2 ⟨false, false, some 5⟩ rfl (by decide) (by decide)⟩

/-- Claim C3, counterexample: a playNote rejection does not return the
scheduler to Idle.  With a single placed note whose playNote call fails and
no stop request, the pass aborts with the rejection escaping: isPlaying
stays true and currentNoteIndex stays 0 — a stuck Playing state, contrary
to the claimed transition to Idle. -/
theorem playnote_failure_counterexample :
    togglePlayback (fun _ => false) (fun _ => false) [sampleNote] ⟨false, false, none⟩ =
      ([0], ⟨true, true, some 0⟩, true) ∧
    ¬ (togglePlayback (fun _ => false) (fun _ => false) [sampleNote]
        ⟨false, false, none⟩).2.1.isPlaying = false :=
  ⟨by decide, by decide⟩

/-- Claim C3, amended: when the tone primitive rejects for note j during a
pass (no stop request up to j, earlier notes fine), the remainder of the
pass is aborted — exactly notes 0..j were started, none after — but the
escaping rejection skips the loop's cleanup: the scheduler is left with
isPlaying = true, the cancellation flag live and currentNoteIndex = some j
(a stuck Playing state), until a subsequent togglePlayback call takes the
stop branch and clears it. -/
theorem playnote_failure_stuck (playOk stopDuring : Nat → Bool) (notes : List PlacedNote)
    (j : Nat) (b : Bool) (ci : Option Nat) (hj : j < notes.length)
    (hfail : playOk j = false) (hok : ∀ i, i < j → playOk i = true)
    (hnostop : ∀ i, i ≤ j → stopDuring i = false) :
    togglePlayback playOk stopDuring notes ⟨false, b, ci⟩ =
      (List.range (j + 1), ⟨true, true, some j⟩, true) ∧
    togglePlayback playOk stopDuring notes ⟨true, true, some j⟩ =
      ([], ⟨false, false, some j⟩, false) := by
  refine ⟨?_, rfl⟩
  have hloop := runLoopAux_fail playOk stopDuring j hfail hok hnostop j 0 notes.length ci
    (by omega) (by omega)
  have hne : ¬ notes.length = 0 := by omega
  simp [togglePlayback, hne, hloop, idxRange_zero]

theorem playnote_failure_stuck_witness :
    (0 : Nat) < ([sampleNote] : List PlacedNote).length ∧
    togglePlayback (fun _ => false) (fun _ => false) [sampleNote] ⟨false, false, none⟩ =
      (List.range 1, ⟨true, true, some 0⟩, true) := by
  refine ⟨by decide, (playnote_failure_stuck (fun _ => false) (fun _ => false) [sampleNote]
    0 false none (by decide) rfl (fun i hi => absurd hi (by omega))
    (fun i _ => rfl)).1⟩

/-- Claim C7: cancellation is cooperative, checked once per note boundary.
If the first stop request arrives while note k is sounding (all playNote
calls up to k succeeding), note k finishes, no further note is played, the
pass breaks at the next boundary — the notes started are exactly 0..k —
currentIndex is never advanced past k and is reset to none, and the
scheduler ends Idle: the pass terminates within one note's completion. -/
theorem stop_terminates_pass (playOk stopDuring : Nat → Bool) (notes : List PlacedNote)
    (k : Nat) (b : Bool) (ci : Option Nat) (hk : k < notes.length)
    (hok : ∀ i, i ≤ k → playOk i = true)
    (hpre : ∀ i, i < k → stopDuring i = false)
    (hsk : stopDuring k = true) :
    togglePlayback playOk stopDuring notes ⟨false, b, ci⟩ =
      (List.range (k + 1), ⟨false, false, none⟩, false) := by
  have hloop := runLoopAux_stop playOk stopDuring k hok hpre hsk k 0 notes.length true ci
    (by omega) (by omega)
  have hne : ¬ notes.length = 0 := by omega
  simp [togglePlayback, hne, hloop, idxRange_zero]

theorem stop_terminates_pass_witness :
    (0 : Nat) < ([sampleNote, sampleNote] : List PlacedNote).length ∧
    togglePlayback (fun _ => true) (fun _ => true) [sampleNote, sampleNote]
        ⟨false, false, none⟩ = (List.range 1, ⟨false, false, none⟩, false) :=
  ⟨by decide, stop_terminates_pass (fun _ => true) (fun _ => true) [sampleNote, sampleNote]
    0 false none (by decide) (fun i _ => rfl) (fun i hi => absurd hi (by omega)) rfl⟩

/-- Claim C8: at most one playback pass is ever active.  The code exposes a
single toggle: a call made while a pass is running takes the stop branch and
never begins a second pass (it plays nothing and throws nothing), so a
second start attempt without an intervening stop or completion runs no new
pass; a call in the idle state with an empty placed sequence is a no-op; and
every pass plays an initial segment of the placed sequence, strictly in
placed order with each index at most once — in the sequential model of the
single-threaded event loop at most one playNote call is in flight at a
time. -/
theorem scheduler_single_pass (playOk stopDuring : Nat → Bool) (notes : List PlacedNote)
    (s : SchedState) :
    (∀ (b : Bool) (ci : Option Nat),
        togglePlayback playOk stopDuring notes ⟨true, b, ci⟩ =
          ([], ⟨false, false, ci⟩, false)) ∧
    (∀ (b : Bool) (ci : Option Nat),
        togglePlayback playOk stopDuring ([] : List PlacedNote) ⟨false, b, ci⟩ =
          ([], ⟨false, b, ci⟩, false)) ∧
    (∃ m, m ≤ notes.length ∧
        (togglePlayback playOk stopDuring notes s).1 = List.range m) := by
  refine ⟨fun b ci => rfl, fun b ci => rfl, ?_⟩
  cases hp : s.isPlaying
  · cases hn : decide (notes.length = 0)
    · have hn' : ¬ notes.length = 0 := by simpa using hn
      obtain ⟨m, hm, h⟩ := runLoopAux_played_initial playOk stopDuring notes.length 0
        { s with isPlaying := true, playbackRef := true }
      refine ⟨m, hm, ?_⟩
      simp only [togglePlayback, hp, Bool.false_eq_true, if_false, if_neg hn']
      cases hres : (runLoopAux playOk stopDuring notes.length 0
          { s with isPlaying := true, playbackRef := true }).2.2 <;>
        simp [hres, h, idxRange_zero]
    · have hn' : notes.length = 0 := by simpa using hn
      exact ⟨0, Nat.zero_le _, by simp [togglePlayback, hp, hn', List.range_zero]⟩
  · exact ⟨0, Nat.zero_le _, by simp [togglePlayback, hp, List.range_zero]⟩

end PrismaticSilk
